import Mathlib

/-!
Verification of the playback/acquisition core of the Terminal-Sound-Effects
extension, shallowly embedded from `src/audioPlayer.ts`, `src/sfxManager.ts`
and `src/terminalMonitor.ts`.  Machine numbers are modelled as `Nat`/`Int`/`Rat`
(JS numbers in the ranges used here are exact), byte streams as `List Nat`,
and the event-driven parts (HTTP responses, process exit, timers) as explicit
traces or discrete-time step functions.
-/

namespace TerminalSfx

/-- An argument of a spawned command: either a literal string or a numeric
value (a JS number rendered into the argument list). -/
inductive Arg where
  | s (v : String)
  | q (v : ℚ)
deriving DecidableEq, Repr

/-- A command passed to `execFile`: executable name plus argument list. -/
structure Cmd where
  cmd : String
  args : List Arg
deriving DecidableEq, Repr

/-- JS `Math.round`: round half away from zero; for the non-negative values
used here, `⌊x + 1/2⌋`. -/
def jsRound (x : ℚ) : ℤ := ⌊x + 1/2⌋

/-- From `audioPlayer.ts` line 22: `Math.max(0, volume) / 50` — the macOS
(`afplay -v`) volume mapping. -/
def darwinVolume (volume : ℚ) : ℚ := max 0 volume / 50

/-- The `afplay` invocation of the darwin branch of `playSound`. -/
def darwinCmd (filePath : String) (volume : ℚ) : Cmd :=
  ⟨"afplay", [.s "-v", .q (darwinVolume volume), .s filePath]⟩

/-- First Linux candidate: `paplay --volume Math.round((volume/100)*65536) file`. -/
def paplayCmd (filePath : String) (volume : ℤ) : Cmd :=
  ⟨"paplay", [.s "--volume", .s (toString (jsRound ((volume : ℚ) / 100 * 65536))), .s filePath]⟩

/-- Second Linux candidate: `aplay file` (no volume argument). -/
def aplayCmd (filePath : String) : Cmd :=
  ⟨"aplay", [.s filePath]⟩

/-- Third Linux candidate: `mpv --no-video --volume=volume file`. -/
def mpvCmd (filePath : String) (volume : ℤ) : Cmd :=
  ⟨"mpv", [.s "--no-video", .s ("--volume=" ++ toString volume), .s filePath]⟩

/-- The ordered candidate list of `tryLinuxPlayers` (`audioPlayer.ts` 32–45). -/
def linuxPlayers (filePath : String) (volume : ℤ) : List Cmd :=
  [paplayCmd filePath volume, aplayCmd filePath, mpvCmd filePath volume]

/-- The recursive `tryNext` of `tryLinuxPlayers`: spawn the player at the
current index; its `execFile` callback receives an error exactly when the
process could not be started or exited with an error, in which case the next
candidate is tried.  `ok i` tells whether candidate `i` succeeds; the result
is the list of commands actually spawned, in order. -/
def tryNext (ok : ℕ → Bool) : List Cmd → ℕ → List Cmd
  | [], _ => []
  | p :: ps, i => p :: (if ok i then [] else tryNext ok ps (i + 1))

/-- `tryLinuxPlayers(filePath, volume)` with spawn outcomes `ok`. -/
def tryLinuxPlayers (filePath : String) (volume : ℤ) (ok : ℕ → Bool) : List Cmd :=
  tryNext ok (linuxPlayers filePath volume) 0

/-- The single-quote character, used by the PowerShell escape. -/
def sq : String := (Char.ofNat 39).toString

/-- `filePath.replace(/'/g, "''")` from `playWindows`. -/
def escapeQuotes (filePath : String) : String :=
  filePath.replace sq (sq ++ sq)

/-- `playWindows` (`audioPlayer.ts` 59–70): `.wav` files go through the
`System.Media.SoundPlayer` scripting-host branch, everything else through
`Start-Process wmplayer`.  The volume is not an input at all. -/
def playWindows (filePath : String) : Cmd :=
  if filePath.endsWith ".wav" then
    ⟨"powershell",
      [.s "-NoProfile", .s "-Command",
       .s ("(New-Object System.Media.SoundPlayer " ++ sq ++ escapeQuotes filePath ++ sq
            ++ ").PlaySync()")]⟩
  else
    ⟨"powershell",
      [.s "-NoProfile", .s "-Command",
       .s ("Start-Process wmplayer -ArgumentList " ++ sq ++ "\"" ++ filePath ++ "\"" ++ sq
            ++ " -Wait")]⟩

/-- `playSound` (`audioPlayer.ts` 16–29): dispatch on `os.platform()`.
Returns the list of commands spawned (the Linux chain depends on the spawn
outcomes `ok`; the other platforms spawn exactly one command, or none on an
unsupported platform). -/
def playSound (platform : String) (filePath : String) (volume : ℤ) (ok : ℕ → Bool) :
    List Cmd :=
  if platform = "darwin" then [darwinCmd filePath (volume : ℚ)]
  else if platform = "linux" then tryLinuxPlayers filePath volume ok
  else if platform = "win32" then [playWindows filePath]
  else []

/-! ### Fetcher (`sfxManager.ts`, `downloadFromUrl`) -/

/-- `MAX_FILE_BYTES = 5 * 1024 * 1024` from `sfxManager.ts` line 110. -/
def MAX_FILE_BYTES : ℕ := 5 * 1024 * 1024

/-- The question-mark character (query-string delimiter of a URL). -/
def queryChar : Char := Char.ofNat 63

/-- The fragment delimiter of a URL. -/
def fragChar : Char := Char.ofNat 35

/-- Scan for the first `://` scheme marker and return what follows it. -/
def afterMarker : List Char → Option (List Char)
  | ':' :: '/' :: '/' :: rest => some rest
  | _ :: rest => afterMarker rest
  | [] => none

/-- The `pathname` of `new URL(url)`: everything from the first slash after
the `scheme://authority` part, up to the query string or fragment. -/
def urlPathname (url : String) : String :=
  let afterScheme :=
    match afterMarker url.data with
    | some rest => rest
    | none => url.data
  let fromSlash := afterScheme.dropWhile (fun c => c ≠ '/')
  String.mk (fromSlash.takeWhile (fun c => c ≠ queryChar ∧ c ≠ fragChar))

/-- The basename: everything after the last slash. -/
def basenameChars (l : List Char) : List Char :=
  (l.reverse.takeWhile (fun c => c ≠ '/')).reverse

/-- Node's `path.extname` on a character list: the suffix of the basename
starting at its last dot; empty when the basename has no dot, only a
leading dot, or is exactly `..`. -/
def extnameChars (p : List Char) : List Char :=
  let b := basenameChars p
  let revTail := b.reverse.takeWhile (fun c => c ≠ '.')
  if b = ['.', '.'] then []
  else if revTail.length = b.length then []
  else if revTail.length + 1 = b.length then []
  else '.' :: revTail.reverse

/-- Node's `path.extname`. -/
def extname (p : String) : String :=
  String.mk (extnameChars p.data)

/-- `sfxManager.ts` 113–114: destination filename
`custom-${Date.now()}${path.extname(new URL(url).pathname) || '.mp3'}`,
where `now` is the value of `Date.now()` observed by this invocation. -/
def destFilename (url : String) (now : ℕ) : String :=
  let e := extname (urlPathname url)
  let ext := if e = "" then ".mp3" else e
  "custom-" ++ toString now ++ ext

/-- An HTTP response as seen by the `client.get` callback: status code,
optional `location` header, and the body as the list of `data` chunks
(each chunk a list of bytes). -/
structure HttpResponse where
  statusCode : ℕ
  location : Option String
  chunks : List (List ℕ)
deriving DecidableEq, Repr

/-- One network event answering a request: either a response or a
transport-level `'error'` event. -/
inductive NetEvent where
  | response (r : HttpResponse)
  | netError (msg : String)
deriving DecidableEq, Repr

/-- The error taxonomy of the Fetcher (spec §7), as produced by
`downloadFromUrl`'s `reject` calls. -/
inductive FetchError where
  | redirectNoLocation
  | badStatus (code : ℕ)
  | sizeExceeded
  | transport (msg : String)
deriving DecidableEq, Repr

deriving instance DecidableEq for Except

/-- Outcome of a `downloadFromUrl` call: the settled promise, the files left
on disk afterwards (path with final content), and the number of HTTP
requests issued. -/
structure DlOutcome where
  result : Except FetchError String
  files : List (String × List ℕ)
  requests : ℕ
deriving DecidableEq, Repr

/-- The per-chunk size check of `sfxManager.ts` 141–150: accumulate
`received += chunk.length` and reject as soon as `received > MAX_FILE_BYTES`.
Returns `true` when the stream trips the cap. -/
def exceedsCap : ℕ → List (List ℕ) → Bool
  | _, [] => false
  | received, c :: cs =>
    let r := received + c.length
    if r > MAX_FILE_BYTES then true else exceedsCap r cs

/-- `downloadFromUrl` (`sfxManager.ts` 112–163).  The *plan* supplies, for
each request the procedure makes, the `Date.now()` value observed when the
destination name is derived and the network event that answers the request;
a redirect recurses into the rest of the plan with the `location` URL.  An
exhausted plan models a request that never completes (the transport
eventually errors).  On every rejection path the code closes and unlinks the
partial file, so only the success path leaves a file. -/
def downloadFromUrl (dir : String) (url : String) :
    List (ℕ × NetEvent) → DlOutcome
  | [] => ⟨.error (.transport "socket hang up"), [], 1⟩
  | (_, .netError msg) :: _ => ⟨.error (.transport msg), [], 1⟩
  | (now, .response r) :: rest =>
    let destPath := dir ++ "/" ++ destFilename url now
    if r.statusCode = 301 ∨ r.statusCode = 302 then
      match r.location with
      | some loc =>
        let o := downloadFromUrl dir loc rest
        ⟨o.result, o.files, o.requests + 1⟩
      | none => ⟨.error .redirectNoLocation, [], 1⟩
    else if r.statusCode ≠ 200 then ⟨.error (.badStatus r.statusCode), [], 1⟩
    else if exceedsCap 0 r.chunks then ⟨.error .sizeExceeded, [], 1⟩
    else ⟨.ok destPath, [(destPath, r.chunks.flatten)], 1⟩

/-! ### Dispatch/Debounce (`sfxManager.ts`, `handleError`) -/

/-- `DEBOUNCE_MS = 300` from `sfxManager.ts` line 14. -/
def DEBOUNCE_MS : ℕ := 300

/-- `handleError` (`sfxManager.ts` 77–89) at one alert event.  Inputs: the
`enabled` flag, the result of `resolveSelectedSound()`, the current
`Date.now()` value, and the stored `lastPlayTime`.  Returns the new
`lastPlayTime` and whether `playSound` was invoked.  Note the order of the
source: the timestamp is updated before resolution is attempted. -/
def handleError (enabled : Bool) (resolved : Option String) (now lastPlayTime : ℕ) :
    ℕ × Bool :=
  if !enabled then (lastPlayTime, false)
  else if (now : ℤ) - (lastPlayTime : ℤ) < (DEBOUNCE_MS : ℤ) then (lastPlayTime, false)
  else
    match resolved with
    | none => (now, false)
    | some _ => (now, true)

/-- Number of playback attempts fired by a sequence of alert events at the
given `Date.now()` values, threading `lastPlayTime` (initialised to `0` at
construction, `sfxManager.ts` line 13). -/
def countPlays (enabled : Bool) (resolved : Option String) :
    ℕ → List ℕ → ℕ
  | _, [] => 0
  | lastPlayTime, t :: ts =>
    let r := handleError enabled resolved t lastPlayTime
    (if r.2 then 1 else 0) + countPlays enabled resolved r.1 ts

/-! ### Kill timeout (`audioPlayer.ts`, `killAfterTimeout`) -/

/-- `MAX_PLAYBACK_MS = 20_000` from `audioPlayer.ts` line 4. -/
def MAX_PLAYBACK_MS : ℕ := 20000

/-- State of one spawned process under `killAfterTimeout`: whether it has
exited, whether `proc.kill()` has been called, and whether the `setTimeout`
timer is still pending. -/
structure ProcState where
  exited : Bool
  killed : Bool
  timerArmed : Bool
deriving DecidableEq, Repr

/-- State right after spawning: timer armed (`setTimeout`), process alive. -/
def initProc : ProcState := ⟨false, false, true⟩

/-- One millisecond tick of the `killAfterTimeout` semantics
(`audioPlayer.ts` 11–14).  `exitAt` is the time the process exits on its own
if it is never killed.  When the exit event fires, `clearTimeout` disarms the
timer; at `MAX_PLAYBACK_MS`, a still-armed timer fires and kills the process
if `!proc.killed`. -/
def procStep (exitAt : Option ℕ) (t : ℕ) (s : ProcState) : ProcState :=
  let s1 :=
    if exitAt = some t ∧ ¬s.killed ∧ ¬s.exited then
      { s with exited := true, timerArmed := false }
    else s
  if t = MAX_PLAYBACK_MS ∧ s1.timerArmed ∧ ¬s1.killed then
    { s1 with killed := true, timerArmed := false }
  else s1

/-- State of the process after all ticks `0, 1, …, t` have elapsed. -/
def runProc (exitAt : Option ℕ) : ℕ → ProcState
  | 0 => procStep exitAt 0 initProc
  | t + 1 => procStep exitAt (t + 1) (runProc exitAt t)

/-! ### Terminal monitor (`terminalMonitor.ts`) -/

/-- The `onDidEndTerminalShellExecution` listener of `TerminalMonitor`:
fires the error callback exactly when
`event.exitCode !== undefined && event.exitCode !== 0`
(`undefined` modelled as `none`). -/
def terminalMonitorFires (exitCode : Option ℤ) : Bool :=
  match exitCode with
  | none => false
  | some c => decide (c ≠ 0)

/-! ### Decimal representation of `Nat` is injective

`destFilename` embeds `Date.now()` through `toString`, i.e. `Nat.repr`.
The uniqueness claim about destination filenames needs injectivity of the
decimal printer, which core does not provide; we prove it via a fuel-free
reformulation of `Nat.toDigitsCore`. -/

/-- Fuel-free decimal digit list of a natural number (most significant
first). -/
def decChars (n : ℕ) : List Char :=
  if n < 10 then [Nat.digitChar n]
  else decChars (n / 10) ++ [Nat.digitChar (n % 10)]
decreasing_by exact Nat.div_lt_self (by omega) (by omega)

theorem decChars_ne_nil (n : ℕ) : decChars n ≠ [] := by
  rw [decChars]
  split
  · simp
  · simp

theorem digitChar_inj {a b : ℕ} (ha : a < 10) (hb : b < 10)
    (h : Nat.digitChar a = Nat.digitChar b) : a = b := by
  interval_cases a <;> interval_cases b <;> first | rfl | (exact absurd h (by decide))

theorem decChars_lt {n : ℕ} (h : n < 10) : decChars n = [Nat.digitChar n] := by
  rw [decChars, if_pos h]

theorem decChars_ge {n : ℕ} (h : ¬ n < 10) :
    decChars n = decChars (n / 10) ++ [Nat.digitChar (n % 10)] := by
  conv_lhs => rw [decChars]
  rw [if_neg h]

theorem decChars_inj : ∀ m n : ℕ, decChars m = decChars n → m = n := by
  intro m
  induction m using Nat.strong_induction_on with
  | _ m ih =>
    intro n h
    by_cases hm : m < 10 <;> by_cases hn : n < 10
    · rw [decChars_lt hm, decChars_lt hn] at h
      exact digitChar_inj hm hn (by injection h)
    · rw [decChars_lt hm, decChars_ge hn] at h
      have hlen := congrArg List.length h
      simp [List.length_append] at hlen
      exact absurd hlen (decChars_ne_nil (n / 10))
    · rw [decChars_ge hm, decChars_lt hn] at h
      have hlen := congrArg List.length h
      simp [List.length_append] at hlen
      exact absurd hlen (decChars_ne_nil (m / 10))
    · rw [decChars_ge hm, decChars_ge hn] at h
      have hrev := congrArg List.reverse h
      simp at hrev
      obtain ⟨hd, htl⟩ := hrev
      have hdiv : m / 10 = n / 10 := by
        apply ih (m / 10) (Nat.div_lt_self (by omega) (by omega))
        have := congrArg List.reverse htl
        simpa using this
      have hmod : m % 10 = n % 10 :=
        digitChar_inj (Nat.mod_lt _ (by omega)) (Nat.mod_lt _ (by omega)) hd
      omega

theorem toDigitsCore_eq_decChars :
    ∀ fuel n acc, 0 < fuel → n < 10 ^ fuel →
      Nat.toDigitsCore 10 fuel n acc = decChars n ++ acc := by
  intro fuel
  induction fuel with
  | zero => intro n acc h; omega
  | succ f ihf =>
    intro n acc _ hlt
    show (if n / 10 = 0 then Nat.digitChar (n % 10) :: acc
          else Nat.toDigitsCore 10 f (n / 10) (Nat.digitChar (n % 10) :: acc))
        = decChars n ++ acc
    by_cases h10 : n / 10 = 0
    · rw [if_pos h10]
      have hn : n < 10 := by omega
      rw [decChars_lt hn, Nat.mod_eq_of_lt hn]
      simp
    · rw [if_neg h10]
      have hn : ¬ n < 10 := by omega
      have hf : 0 < f := by
        by_contra hc
        have : f = 0 := by omega
        subst this
        simp at hlt
        omega
      have hdivlt : n / 10 < 10 ^ f := by
        have hm : n < 10 ^ f * 10 := by
          have := hlt
          rw [pow_succ] at this
          omega
        exact Nat.div_lt_of_lt_mul (by rw [Nat.mul_comm]; exact hm)
      rw [ihf (n / 10) (Nat.digitChar (n % 10) :: acc) hf hdivlt]
      rw [decChars_ge hn]
      simp

theorem repr_data_eq_decChars (n : ℕ) : (Nat.repr n).data = decChars n := by
  show (Nat.toDigits 10 n).asString.data = decChars n
  rw [Nat.toDigits]
  rw [toDigitsCore_eq_decChars (n + 1) n [] (by omega)]
  · simp [List.asString]
  · calc n < 2 ^ n := Nat.lt_two_pow n
      _ ≤ 10 ^ n := Nat.pow_le_pow_left (by omega) n
      _ ≤ 10 ^ (n + 1) := Nat.pow_le_pow_right (by omega) (by omega)

theorem nat_repr_inj {m n : ℕ} (h : Nat.repr m = Nat.repr n) : m = n := by
  apply decChars_inj
  rw [← repr_data_eq_decChars, ← repr_data_eq_decChars, h]

theorem toString_nat_eq_repr (n : ℕ) : (toString n : String) = Nat.repr n := rfl

theorem string_data_append (a b : String) : (a ++ b).data = a.data ++ b.data := rfl

theorem decChars_digits : ∀ n : ℕ, ∀ c ∈ decChars n, c.isDigit = true := by
  intro n
  induction n using Nat.strong_induction_on with
  | _ n ih =>
    intro c hc
    by_cases h : n < 10
    · rw [decChars_lt h] at hc
      simp at hc
      subst hc
      interval_cases n <;> decide
    · rw [decChars_ge h] at hc
      simp at hc
      rcases hc with hc | hc
      · exact ih (n / 10) (Nat.div_lt_self (by omega) (by omega)) c hc
      · subst hc
        have h10 : n % 10 < 10 := Nat.mod_lt _ (by omega)
        set k := n % 10 with hk
        interval_cases k <;> decide

/-- A run of digit characters followed by a non-digit determines itself: if
`d1 ++ r1 = d2 ++ r2` with `d1, d2` all digits and `r1, r2` starting with
non-digits, the two splits agree. -/
theorem digit_run_split :
    ∀ (d1 d2 r1 r2 : List Char),
      (∀ c ∈ d1, c.isDigit = true) → (∀ c ∈ d2, c.isDigit = true) →
      (∀ c, r1.head? = some c → c.isDigit = false) →
      (∀ c, r2.head? = some c → c.isDigit = false) →
      d1 ++ r1 = d2 ++ r2 → d1 = d2 ∧ r1 = r2 := by
  intro d1
  induction d1 with
  | nil =>
    intro d2 r1 r2 _ hd2 hr1 _ h
    cases d2 with
    | nil => exact ⟨rfl, by simpa using h⟩
    | cons b d2Tl =>
      have hb : b.isDigit = true := hd2 b (by simp)
      have hh : r1.head? = some b := by
        simp at h
        rw [h]
        rfl
      have := hr1 b hh
      rw [this] at hb
      exact absurd hb (by simp)
  | cons a d1Tl ih =>
    intro d2 r1 r2 hd1 hd2 hr1 hr2 h
    cases d2 with
    | nil =>
      have ha : a.isDigit = true := hd1 a (by simp)
      have hh : r2.head? = some a := by
        simp at h
        rw [← h]
        rfl
      have := hr2 a hh
      rw [this] at ha
      exact absurd ha (by simp)
    | cons b d2Tl =>
      simp at h
      obtain ⟨hab, htail⟩ := h
      obtain ⟨h1, h2⟩ :=
        ih d2Tl r1 r2 (fun c hc => hd1 c (by simp [hc])) (fun c hc => hd2 c (by simp [hc]))
          hr1 hr2 htail
      exact ⟨by rw [hab, h1], h2⟩

/-- `extname` is empty or starts with a dot. -/
theorem extname_shape (p : String) : extname p = "" ∨ ∃ s, extname p = "." ++ s := by
  simp only [extname, extnameChars]
  split
  · left; rfl
  · split
    · left; rfl
    · split
      · left; rfl
      · right; exact ⟨String.mk _, rfl⟩

/-! ### Claim theorems -/

/-- Claim C4: on Linux, `playSound` attempts an ordered chain of exactly three
candidate players, advancing to the next exactly when the current one errors,
stopping at the first success (so no later candidate is attempted), and giving
up after the third candidate fails. -/
theorem linux_fallback_chain (filePath : String) (volume : ℤ) (ok : ℕ → Bool) :
    (linuxPlayers filePath volume).length = 3 ∧
    tryLinuxPlayers filePath volume ok =
      (if ok 0 then [paplayCmd filePath volume]
       else if ok 1 then [paplayCmd filePath volume, aplayCmd filePath]
       else [paplayCmd filePath volume, aplayCmd filePath, mpvCmd filePath volume]) ∧
    playSound "linux" filePath volume ok = tryLinuxPlayers filePath volume ok := by
  refine ⟨rfl, ?_, rfl⟩
  simp only [tryLinuxPlayers, linuxPlayers, tryNext]
  by_cases h0 : ok 0 <;> by_cases h1 : ok 1 <;> simp [h0, h1]

/-- Claim C7: the macOS volume argument equals `clamp(volume, 0, ∞) / 50`; on
inputs in `[0, 100]` the mapping is monotone and bounded to `[0, 2]`. -/
theorem darwin_volume_mapping (filePath : String) (v1 v2 : ℚ)
    (h0 : 0 ≤ v1) (h12 : v1 ≤ v2) (h100 : v2 ≤ 100) :
    darwinCmd filePath v1 = ⟨"afplay", [.s "-v", .q (max 0 v1 / 50), .s filePath]⟩ ∧
    darwinVolume v1 ≤ darwinVolume v2 ∧
    0 ≤ darwinVolume v1 ∧ darwinVolume v2 ≤ 2 := by
  have e1 : max 0 v1 = v1 := max_eq_right h0
  have e2 : max 0 v2 = v2 := max_eq_right (le_trans h0 h12)
  refine ⟨rfl, ?_, ?_, ?_⟩ <;> simp only [darwinVolume, e1, e2] <;> linarith

/-- Witness for C7 at `v1 = 40`, `v2 = 80`. -/
theorem darwin_volume_mapping_witness :
    (0 : ℚ) ≤ 40 ∧ (40 : ℚ) ≤ 80 ∧ (80 : ℚ) ≤ 100 ∧
    (darwinVolume 40 ≤ darwinVolume 80 ∧ 0 ≤ darwinVolume 40 ∧ darwinVolume 80 ≤ 2) :=
  ⟨by norm_num, by norm_num, by norm_num,
    (darwin_volume_mapping "s.mp3" 40 80 (by norm_num) (by norm_num) (by norm_num)).2⟩

/-- Claim C9: the terminal monitor fires its callback exactly when the exit
code is determined and non-zero; exit code `0` and an undetermined exit code
never fire it. -/
theorem terminal_monitor_fires_iff (exitCode : Option ℤ) :
    (terminalMonitorFires exitCode = true ↔ ∃ c, exitCode = some c ∧ c ≠ 0) ∧
    terminalMonitorFires (some 0) = false ∧
    terminalMonitorFires none = false := by
  refine ⟨?_, rfl, rfl⟩
  cases exitCode with
  | none => simp [terminalMonitorFires]
  | some c => simp [terminalMonitorFires]

/-- Claim C10: on Windows the spawned command is a function of the file path
alone — for any two volume values (and any spawn-outcome environment) the
command and arguments are identical, for every file extension. -/
theorem win32_volume_independent (filePath : String) (v1 v2 : ℤ) (ok1 ok2 : ℕ → Bool) :
    playSound "win32" filePath v1 ok1 = playSound "win32" filePath v2 ok2 ∧
    playSound "win32" filePath v1 ok1 = [playWindows filePath] := ⟨rfl, rfl⟩

/-- Claim C8 (counterexample): two simultaneous invocations — both observing
`Date.now() = 1000` — on different URLs derive the *same* destination
filename, so the claimed distinctness fails. -/
theorem destFilename_collision :
    destFilename "http://a.example/x.mp3" 1000 = destFilename "http://b.example/y.mp3" 1000 ∧
    "http://a.example/x.mp3" ≠ "http://b.example/y.mp3" := by
  constructor
  · decide
  · decide

/-- Claim C8 (amended): two invocations of `downloadFromUrl` that observe
distinct `Date.now()` values derive distinct destination filenames; only
invocations within the same millisecond can collide. -/
theorem destFilename_inj (u1 u2 : String) (t1 t2 : ℕ) (hne : t1 ≠ t2) :
    destFilename u1 t1 ≠ destFilename u2 t2 := by
  intro h
  apply hne
  apply decChars_inj
  simp only [destFilename] at h
  have hd := congrArg String.data h
  rw [string_data_append, string_data_append, string_data_append, string_data_append,
    List.append_assoc, List.append_assoc] at hd
  have hd2 := List.append_cancel_left hd
  rw [toString_nat_eq_repr, toString_nat_eq_repr, repr_data_eq_decChars,
    repr_data_eq_decChars] at hd2
  have hdot : ∀ u : String,
      ∃ s, (if extname (urlPathname u) = "" then ".mp3"
            else extname (urlPathname u)) = "." ++ s := by
    intro u
    rcases extname_shape (urlPathname u) with he | ⟨s, he⟩
    · rw [if_pos he]
      exact ⟨"mp3", rfl⟩
    · have hne : extname (urlPathname u) ≠ "" := by
        rw [he]
        intro hc
        have hc2 := congrArg String.data hc
        rw [string_data_append] at hc2
        simp at hc2
      rw [if_neg hne]
      exact ⟨s, he⟩
  obtain ⟨s1, hs1⟩ := hdot u1
  obtain ⟨s2, hs2⟩ := hdot u2
  rw [hs1, hs2] at hd2
  have hsplit := digit_run_split (decChars t1) (decChars t2)
      (("." ++ s1).data) (("." ++ s2).data)
      (decChars_digits t1) (decChars_digits t2)
      (by intro c hc; rw [string_data_append] at hc;
          simp at hc; subst hc; decide)
      (by intro c hc; rw [string_data_append] at hc;
          simp at hc; subst hc; decide)
      hd2
  exact hsplit.1

/-- Witness for the amended C8: distinct timestamps 1000 and 1001 give
distinct filenames. -/
theorem destFilename_inj_witness :
    (1000 : ℕ) ≠ 1001 ∧
    destFilename "http://a.example/x.mp3" 1000 ≠ destFilename "http://b.example/y.mp3" 1001 :=
  ⟨by decide,
    destFilename_inj "http://a.example/x.mp3" "http://b.example/y.mp3" 1000 1001 (by decide)⟩

/-- The incremental cap check never trips when the whole body fits. -/
theorem exceedsCap_false :
    ∀ (cs : List (List ℕ)) (acc : ℕ),
      acc + cs.flatten.length ≤ MAX_FILE_BYTES → exceedsCap acc cs = false := by
  intro cs
  induction cs with
  | nil => intro acc _; rfl
  | cons c cs ih =>
    intro acc h
    rw [List.flatten_cons, List.length_append] at h
    simp only [exceedsCap]
    rw [if_neg (by omega)]
    exact ih _ (by omega)

/-- Claim C1: on every exit path of `downloadFromUrl` other than full success
— non-redirect non-200 status, redirect without a location header, transport
error, or the streamed body exceeding the 5 MiB cap — the promise rejects
with a classified error and no file is left on disk. -/
theorem download_failure_leaves_no_file (dir : String) :
    ∀ (plan : List (ℕ × NetEvent)) (url : String) (e : FetchError),
      (downloadFromUrl dir url plan).result = .error e →
      (downloadFromUrl dir url plan).files = [] := by
  intro plan
  induction plan with
  | nil => intro url e _; rfl
  | cons p rest ih =>
    intro url e h
    obtain ⟨now, ev⟩ := p
    cases ev with
    | netError msg => rfl
    | response r =>
      by_cases hredir : r.statusCode = 301 ∨ r.statusCode = 302
      · cases hloc : r.location with
        | some loc =>
          have hres : (downloadFromUrl dir url ((now, .response r) :: rest)).result
              = (downloadFromUrl dir loc rest).result := by
            simp [downloadFromUrl, hredir, hloc]
          have hfiles : (downloadFromUrl dir url ((now, .response r) :: rest)).files
              = (downloadFromUrl dir loc rest).files := by
            simp [downloadFromUrl, hredir, hloc]
          rw [hfiles]
          exact ih loc e (by rw [← hres]; exact h)
        | none =>
          simp [downloadFromUrl, hredir, hloc]
      · by_cases h200 : r.statusCode = 200
        · by_cases hcap : exceedsCap 0 r.chunks
          · simp [downloadFromUrl, hredir, h200, hcap]
          · exfalso
            simp [downloadFromUrl, hredir, h200, hcap] at h
        · simp [downloadFromUrl, hredir, h200]

/-- Witness for C1: a 404 response rejects with `badStatus 404` and leaves no
file. -/
theorem download_failure_leaves_no_file_witness :
    (downloadFromUrl "d" "http://h/a.mp3" [(0, .response ⟨404, none, []⟩)]).result
        = .error (.badStatus 404) ∧
    (downloadFromUrl "d" "http://h/a.mp3" [(0, .response ⟨404, none, []⟩)]).files = [] :=
  ⟨by decide,
    download_failure_leaves_no_file "d" [(0, .response ⟨404, none, []⟩)] "http://h/a.mp3"
      (.badStatus 404) (by decide)⟩

/-- Claim C6: a 200 response whose body is at most 5 MiB downloads
successfully, and the file at the returned path holds exactly the response
body. -/
theorem download_success_byte_exact (dir url : String) (now : ℕ) (loc : Option String)
    (chunks : List (List ℕ)) (hsize : chunks.flatten.length ≤ MAX_FILE_BYTES) :
    downloadFromUrl dir url [(now, .response ⟨200, loc, chunks⟩)] =
      ⟨.ok (dir ++ "/" ++ destFilename url now),
       [(dir ++ "/" ++ destFilename url now, chunks.flatten)], 1⟩ := by
  have hcap : exceedsCap 0 chunks = false := exceedsCap_false chunks 0 (by omega)
  simp [downloadFromUrl, hcap]

/-- Witness for C6 with a two-chunk body of five bytes. -/
theorem download_success_byte_exact_witness :
    ([[1, 2], [3, 4, 5]] : List (List ℕ)).flatten.length ≤ MAX_FILE_BYTES ∧
    downloadFromUrl "d" "http://h/a.wav" [(7, .response ⟨200, none, [[1, 2], [3, 4, 5]]⟩)] =
      ⟨.ok ("d" ++ "/" ++ destFilename "http://h/a.wav" 7),
       [("d" ++ "/" ++ destFilename "http://h/a.wav" 7, [1, 2, 3, 4, 5])], 1⟩ :=
  ⟨by decide,
    download_success_byte_exact "d" "http://h/a.wav" 7 none [[1, 2], [3, 4, 5]] (by decide)⟩

/-- A server that answers six consecutive 302 redirects and then a 200. -/
def sixRedirectPlan : List (ℕ × NetEvent) :=
  [(0, .response ⟨302, some "http://h/r1.mp3", []⟩),
   (1, .response ⟨302, some "http://h/r2.mp3", []⟩),
   (2, .response ⟨302, some "http://h/r3.mp3", []⟩),
   (3, .response ⟨302, some "http://h/r4.mp3", []⟩),
   (4, .response ⟨302, some "http://h/r5.mp3", []⟩),
   (5, .response ⟨302, some "http://h/r6.mp3", []⟩),
   (6, .response ⟨200, none, [[1]]⟩)]

/-- Claim C2 (evaluation at the failing input): against a server that
redirects six times before answering 200, `downloadFromUrl` follows all six
redirects — issuing seven requests — and succeeds, instead of failing after a
fixed maximum of five redirects.  The recursion is bounded by nothing but the
server's behaviour. -/
theorem download_follows_six_redirects :
    (downloadFromUrl "d" "http://h/a.mp3" sixRedirectPlan).requests = 7 ∧
    (downloadFromUrl "d" "http://h/a.mp3" sixRedirectPlan).result
      = .ok ("d" ++ "/" ++ destFilename "http://h/r6.mp3" 6) := by
  constructor
  · decide
  · decide

/-- An alert inside the debounce window is dropped and leaves the state
unchanged. -/
theorem handleError_drop (s : String) (now last : ℕ)
    (h : (now : ℤ) - (last : ℤ) < (DEBOUNCE_MS : ℤ)) :
    handleError true (some s) now last = (last, false) := by
  simp [handleError, h]

/-- An alert outside the debounce window fires and updates the state. -/
theorem handleError_accept (s : String) (now last : ℕ)
    (h : ¬ ((now : ℤ) - (last : ℤ) < (DEBOUNCE_MS : ℤ))) :
    handleError true (some s) now last = (now, true) := by
  simp [handleError, h]

/-- Claim C3: with the feature enabled and a resolvable sound, at most one
playback attempt fires per 300 ms window measured from the last accepted
event: events at `t0` and `t0 + 200` produce exactly one attempt, events at
`t0` and `t0 + 350` produce exactly two, and any event within 300 ms of the
last accepted one is dropped. -/
theorem debounce_window (t0 : ℕ) (s : String) (h : DEBOUNCE_MS ≤ t0) :
    countPlays true (some s) 0 [t0, t0 + 200] = 1 ∧
    countPlays true (some s) 0 [t0, t0 + 350] = 2 ∧
    (∀ tn last : ℕ, (tn : ℤ) - (last : ℤ) < (DEBOUNCE_MS : ℤ) →
      (handleError true (some s) tn last).2 = false) := by
  have h300 : 300 ≤ t0 := h
  have a1 : handleError true (some s) t0 0 = (t0, true) :=
    handleError_accept s t0 0 (by show ¬((t0 : ℤ) - ((0 : ℕ) : ℤ) < (300 : ℤ)); omega)
  have a2 : handleError true (some s) (t0 + 200) t0 = (t0, false) :=
    handleError_drop s (t0 + 200) t0
      (by show ((t0 + 200 : ℕ) : ℤ) - (t0 : ℤ) < (300 : ℤ); omega)
  have a3 : handleError true (some s) (t0 + 350) t0 = (t0 + 350, true) :=
    handleError_accept s (t0 + 350) t0
      (by show ¬(((t0 + 350 : ℕ) : ℤ) - (t0 : ℤ) < (300 : ℤ)); omega)
  refine ⟨?_, ?_, ?_⟩
  · simp [countPlays, a1, a2]
  · simp [countPlays, a1, a3]
  · intro tn last hlt
    rw [handleError_drop s tn last hlt]

/-- Witness for C3 at `t0 = 1000`. -/
theorem debounce_window_witness :
    DEBOUNCE_MS ≤ 1000 ∧
    (countPlays true (some "a") 0 [1000, 1000 + 200] = 1 ∧
     countPlays true (some "a") 0 [1000, 1000 + 350] = 2 ∧
     (∀ tn last : ℕ, (tn : ℤ) - (last : ℤ) < (DEBOUNCE_MS : ℤ) →
       (handleError true (some "a") tn last).2 = false)) :=
  ⟨by decide, debounce_window 1000 "a" (by decide)⟩

/-- A kill is permanent: once `proc.kill()` has run, every later state keeps
`killed`. -/
theorem procStep_killed_stable (e : Option ℕ) (t : ℕ) (s : ProcState)
    (h : s.killed = true) : (procStep e t s).killed = true := by
  simp [procStep, h]

/-- Before the timeout, a process that has not yet exited is alive, unkilled,
with the timer still armed. -/
theorem runProc_alive (e : Option ℕ) :
    ∀ T, T < MAX_PLAYBACK_MS → (∀ u, u ≤ T → e ≠ some u) →
      runProc e T = ⟨false, false, true⟩ := by
  intro T
  induction T with
  | zero =>
    intro _ hu
    have h0 : e ≠ some 0 := hu 0 (Nat.le_refl 0)
    simp [runProc, procStep, initProc, MAX_PLAYBACK_MS, h0]
  | succ T ih =>
    intro hT hu
    have hTn : T + 1 < 20000 := hT
    have hstep : e ≠ some (T + 1) := hu (T + 1) (Nat.le_refl _)
    have hne : T + 1 ≠ 20000 := by omega
    rw [runProc]
    rw [ih (by show T < 20000; omega) (fun u hu2 => hu u (by omega))]
    simp [procStep, hstep, MAX_PLAYBACK_MS, hne]

/-- A process that never exits on its own is killed exactly when the timer
fires at `MAX_PLAYBACK_MS`. -/
theorem runProc_hang_killed (e : Option ℕ)
    (hhang : ∀ u, u ≤ MAX_PLAYBACK_MS → e ≠ some u) :
    (runProc e MAX_PLAYBACK_MS).killed = true := by
  have hpre : runProc e 19999 = ⟨false, false, true⟩ :=
    runProc_alive e 19999 (by show (19999 : ℕ) < 20000; omega)
      (fun u hu => hhang u (by show u ≤ 20000; omega))
  have hstep : runProc e MAX_PLAYBACK_MS = procStep e 20000 (runProc e 19999) := by
    show runProc e (19999 + 1) = _
    rw [runProc]
  rw [hstep, hpre]
  simp [procStep, MAX_PLAYBACK_MS, hhang 20000 (by show (20000 : ℕ) ≤ 20000; omega)]

/-- After the timeout, a hanging process stays killed. -/
theorem runProc_killed_after (e : Option ℕ)
    (hhang : ∀ u, u ≤ MAX_PLAYBACK_MS → e ≠ some u) :
    ∀ T, MAX_PLAYBACK_MS ≤ T → (runProc e T).killed = true := by
  intro T hT
  induction T, hT using Nat.le_induction with
  | base => exact runProc_hang_killed e hhang
  | succ n _ ih =>
    rw [runProc]
    exact procStep_killed_stable e (n + 1) _ ih

/-- From its natural exit on, a process that exited before the ceiling stays
exited, unkilled, and with its timer cancelled. -/
theorem runProc_exit_state (t0 : ℕ) (ht0 : t0 < MAX_PLAYBACK_MS) :
    ∀ T, t0 ≤ T → runProc (some t0) T = ⟨true, false, false⟩ := by
  intro T hT
  induction T, hT using Nat.le_induction with
  | base =>
    cases t0 with
    | zero => simp [runProc, procStep, initProc, MAX_PLAYBACK_MS]
    | succ k =>
      have h2 : k + 1 < 20000 := ht0
      have hpre : runProc (some (k + 1)) k = ⟨false, false, true⟩ :=
        runProc_alive (some (k + 1)) k (by show k < 20000; omega)
          (fun u hu => by intro hc; injection hc with hc2; omega)
      rw [runProc, hpre]
      simp [procStep]
  | succ n _ ih =>
    rw [runProc, ih]
    simp [procStep]

/-- Claim C5: a spawned process that has not exited within 20 000 ms is
forcibly terminated, while a process that exits naturally before the ceiling
is never killed — at any later time — because the exit event cancels the kill
timer rather than merely outrunning it. -/
theorem kill_timeout_spec (e : Option ℕ) (t0 T : ℕ)
    (hhang : ∀ u, u ≤ MAX_PLAYBACK_MS → e ≠ some u)
    (hT : MAX_PLAYBACK_MS ≤ T) (ht0 : t0 < MAX_PLAYBACK_MS) :
    (runProc e T).killed = true ∧
    (∀ T2, (runProc (some t0) T2).killed = false) ∧
    (∀ T2, t0 ≤ T2 → (runProc (some t0) T2).timerArmed = false) := by
  refine ⟨runProc_killed_after e hhang T hT, ?_, ?_⟩
  · intro T2
    by_cases hle : t0 ≤ T2
    · rw [runProc_exit_state t0 ht0 T2 hle]
    · have ht0n : t0 < 20000 := ht0
      have halive : runProc (some t0) T2 = ⟨false, false, true⟩ :=
        runProc_alive (some t0) T2 (by show T2 < 20000; omega)
          (fun u hu => by intro hc; injection hc with hc2; omega)
      rw [halive]
  · intro T2 hle
    rw [runProc_exit_state t0 ht0 T2 hle]

/-- Witness for C5: a hanging process is killed by `t = 20000`; a process
exiting at `t = 5000` is never killed and its timer is cancelled. -/
theorem kill_timeout_spec_witness :
    (∀ u, u ≤ MAX_PLAYBACK_MS → (none : Option ℕ) ≠ some u) ∧
    MAX_PLAYBACK_MS ≤ 20000 ∧ 5000 < MAX_PLAYBACK_MS ∧
    ((runProc none 20000).killed = true ∧
     (∀ T2, (runProc (some 5000) T2).killed = false) ∧
     (∀ T2, 5000 ≤ T2 → (runProc (some 5000) T2).timerArmed = false)) :=
  ⟨fun _ _ h => Option.noConfusion h, by decide, by decide,
    kill_timeout_spec none 5000 20000 (fun _ _ h => Option.noConfusion h)
      (by decide) (by decide)⟩

end TerminalSfx
